import Mathlib

/-!
Shallow embedding of `src/langchain/document_loaders/azure_cosmosdb.py`
(`AzureCosmosDBLoader`) and proofs about it.

Python JSON values (the result of `json.loads` plus what a `jq` program can
produce from them) are modelled by the inductive `PyVal`.  JSON numbers are
modelled as integers; floating-point samples are outside the model.  Python
exceptions are modelled with `Except PyErr`; the external `jq` and
`azure.cosmos` libraries are modelled by explicit capability records whose
availability and behaviour the theorems quantify over.
-/

/-- A Python value as produced by `json.loads` and by evaluating a compiled
`jq` program on such a value: a string, an integer, a boolean, a list, a
dict with string keys, or `None`.  (JSON object keys decoded by `json.loads`
are always strings, so dict keys are `String`.) -/
inductive PyVal where
  | str (s : String)
  | int (n : Int)
  | bool (b : Bool)
  | list (xs : List PyVal)
  | dict (entries : List (String × PyVal))
  | none

/-- The Python exceptions this code can raise. -/
inductive PyErr where
  | importError (msg : String)
  | valueError (msg : String)
  | attributeError (msg : String)
deriving DecidableEq

/-- `isinstance(content, str)`. -/
def PyVal.isStr : PyVal → Bool
  | .str _ => true
  | _ => false

/-- `isinstance(content, dict)`. -/
def PyVal.isDict : PyVal → Bool
  | .dict _ => true
  | _ => false

/-- Lowercase hexadecimal digit for `n < 16`. -/
def hexDigitChar (n : Nat) : Char :=
  if n < 10 then Char.ofNat (48 + n) else Char.ofNat (87 + n)

/-- Four lowercase hexadecimal digits of `n < 0x10000` (as in `\uXXXX`). -/
def toHex4 (n : Nat) : List Char :=
  [hexDigitChar (n / 4096 % 16), hexDigitChar (n / 256 % 16),
   hexDigitChar (n / 16 % 16), hexDigitChar (n % 16)]

/-- How `json.dumps` (with its default `ensure_ascii=True`) renders one
character of a string: `"` and `\` and the named control characters get a
two-character escape, other characters below `0x20` and at or above `0x7f`
get `\uXXXX` (a surrogate pair for characters beyond `0xffff`), and the
remaining printable ASCII characters stand for themselves. -/
def jsonEscapeChar (c : Char) : List Char :=
  if c = '"' then ['\\', '"']
  else if c = '\\' then ['\\', '\\']
  else if c = '\n' then ['\\', 'n']
  else if c = '\r' then ['\\', 'r']
  else if c = '\t' then ['\\', 't']
  else if c.toNat = 8 then ['\\', 'b']
  else if c.toNat = 12 then ['\\', 'f']
  else if 0x20 ≤ c.toNat ∧ c.toNat < 0x7f then [c]
  else if c.toNat < 0x10000 then '\\' :: 'u' :: toHex4 c.toNat
  else
    '\\' :: 'u' :: toHex4 (0xd800 + (c.toNat - 0x10000) / 0x400) ++
      '\\' :: 'u' :: toHex4 (0xdc00 + (c.toNat - 0x10000) % 0x400)

/-- `jsonEscapeChar` applied to every character in turn. -/
def jsonEscapeList : List Char → List Char
  | [] => []
  | c :: cs => jsonEscapeChar c ++ jsonEscapeList cs

/-- `json.dumps` of a Python string: the escaped characters in double
quotes. -/
def jsonDumpStr (s : String) : String :=
  ⟨'"' :: (jsonEscapeList s.data ++ ['"'])⟩

/-- The decimal digits of `n`, most significant first (at least one digit). -/
def natToDigits (n : Nat) : List Char :=
  if h : n < 10 then [Char.ofNat (48 + n)]
  else natToDigits (n / 10) ++ [Char.ofNat (48 + n % 10)]
decreasing_by exact Nat.div_lt_self (by omega) (by omega)

/-- Python's textual form of an integer (`str(n)`, also what `json.dumps`
emits for an `int`). -/
def intRepr (n : Int) : String :=
  if n < 0 then "-" ++ ⟨natToDigits (-n).toNat⟩ else ⟨natToDigits n.toNat⟩

mutual

/-- `json.dumps` with its default arguments (`ensure_ascii=True`, item
separator `", "`, key separator `": "`, insertion order kept). -/
def dumps : PyVal → String
  | .str s => jsonDumpStr s
  | .int n => intRepr n
  | .bool b => if b then ("true") else ("false")
  | .none => "null"
  | .list [] => "[]"
  | .list (x :: xs) => "[" ++ dumpsItems x xs ++ "]"
  | .dict [] => "\x7b\x7d"
  | .dict (e :: es) => "\x7b" ++ dumpsEntries e es ++ "\x7d"
termination_by v => sizeOf v

/-- The comma-separated body of a dumped JSON array. -/
def dumpsItems : PyVal → List PyVal → String
  | x, [] => dumps x
  | x, y :: ys => dumps x ++ ", " ++ dumpsItems y ys
termination_by x xs => sizeOf (x :: xs)

/-- The comma-separated body of a dumped JSON object. -/
def dumpsEntries : String × PyVal → List (String × PyVal) → String
  | (k, v), [] => jsonDumpStr k ++ ": " ++ dumps v
  | (k, v), e :: es => jsonDumpStr k ++ ": " ++ dumps v ++ ", " ++ dumpsEntries e es
termination_by e es => sizeOf (e :: es)

end

/-- JSON whitespace, as `json.loads` skips it. -/
def isJsonWs (c : Char) : Bool :=
  c = ' ' || c = '\t' || c = '\n' || c = '\r'

/-- Drop leading JSON whitespace. -/
def skipWs (cs : List Char) : List Char :=
  cs.dropWhile isJsonWs

/-- Whether `c` is a decimal digit `0..9`. -/
def isDigitChar (c : Char) : Bool :=
  48 ≤ c.toNat && c.toNat ≤ 57

/-- The value of one hexadecimal digit (either case), or `none`. -/
def hexVal (c : Char) : Option Nat :=
  if 48 ≤ c.toNat ∧ c.toNat ≤ 57 then some (c.toNat - 48)
  else if 97 ≤ c.toNat ∧ c.toNat ≤ 102 then some (c.toNat - 87)
  else if 65 ≤ c.toNat ∧ c.toNat ≤ 70 then some (c.toNat - 55)
  else Option.none

/-- Decode what follows a backslash in a JSON string literal: the decoded
character and the input after the escape.  `\uXXXX` escapes are decoded, a
high surrogate followed by a low one as the combined code point.  Model
note: a `\uXXXX` escape that would decode to a lone surrogate is rejected
(Python would build a string holding a lone surrogate, which a well-formed
Unicode string cannot hold). -/
def unescapeEsc : List Char → Option (Char × List Char)
  | [] => Option.none
  | e :: rest2 =>
    if e = 'u' then
      match rest2 with
      | a :: b :: c3 :: d :: rest3 => do
        let ha ← hexVal a
        let hb ← hexVal b
        let hc ← hexVal c3
        let hd ← hexVal d
        let k := ((ha * 16 + hb) * 16 + hc) * 16 + hd
        if k < 0xd800 ∨ 0xe000 ≤ k then
          some (Char.ofNat k, rest3)
        else if k < 0xdc00 then
          match rest3 with
          | e2 :: u2 :: a2 :: b2 :: c4 :: d2 :: rest4 =>
            if e2 = '\\' ∧ u2 = 'u' then do
              let ha2 ← hexVal a2
              let hb2 ← hexVal b2
              let hc2 ← hexVal c4
              let hd2 ← hexVal d2
              let l := ((ha2 * 16 + hb2) * 16 + hc2) * 16 + hd2
              if 0xdc00 ≤ l ∧ l < 0xe000 then
                some (Char.ofNat (0x10000 + (k - 0xd800) * 0x400 + (l - 0xdc00)), rest4)
              else Option.none
            else Option.none
          | _ => Option.none
        else Option.none
      | _ => Option.none
    else if e = '"' then some ('"', rest2)
    else if e = '\\' then some ('\\', rest2)
    else if e = '/' then some ('/', rest2)
    else if e = 'b' then some (Char.ofNat 8, rest2)
    else if e = 'f' then some (Char.ofNat 12, rest2)
    else if e = 'n' then some ('\n', rest2)
    else if e = 'r' then some ('\r', rest2)
    else if e = 't' then some ('\t', rest2)
    else Option.none

/-- The body of a JSON string literal after its opening quote: the decoded
characters and the input after the closing quote.  `fuel` bounds the number
of decoded characters; callers pass the input length, which always
suffices.  Raw control characters are rejected as in `json.loads` default
strict mode. -/
def parseStringBody : Nat → List Char → Option (List Char × List Char)
  | 0, _ => Option.none
  | _, [] => Option.none
  | fuel + 1, c :: rest =>
    if c = '"' then some ([], rest)
    else if c = '\\' then
      match unescapeEsc rest with
      | some (dc, rest2) =>
        (parseStringBody fuel rest2).map fun p => (dc :: p.1, p.2)
      | Option.none => Option.none
    else if c.toNat < 0x20 then Option.none
    else (parseStringBody fuel rest).map fun p => (c :: p.1, p.2)

/-- Consume leading decimal digits, folding them onto `acc`. -/
def parseDigitsAux (acc : Nat) : List Char → Nat × List Char
  | [] => (acc, [])
  | c :: rest =>
    if isDigitChar c then parseDigitsAux (acc * 10 + (c.toNat - 48)) rest
    else (acc, c :: rest)

mutual

/-- One JSON value (integer numbers only, matching the printer's model) and
the rest of the input.  `fuel` bounds the nesting of recursive calls. -/
def parseVal : Nat → List Char → Option (PyVal × List Char)
  | 0, _ => Option.none
  | fuel + 1, cs =>
    match skipWs cs with
    | [] => Option.none
    | c :: rest =>
      if c = '"' then
        (parseStringBody (rest.length + 1) rest).map fun p => (.str ⟨p.1⟩, p.2)
      else if c = 't' then
        match rest with
        | 'r' :: 'u' :: 'e' :: r => some (.bool true, r)
        | _ => Option.none
      else if c = 'f' then
        match rest with
        | 'a' :: 'l' :: 's' :: 'e' :: r => some (.bool false, r)
        | _ => Option.none
      else if c = 'n' then
        match rest with
        | 'u' :: 'l' :: 'l' :: r => some (.none, r)
        | _ => Option.none
      else if c = '[' then
        match skipWs rest with
        | c2 :: r =>
          if c2 = ']' then some (.list [], r)
          else (parseItems fuel rest).map fun p => (.list p.1, p.2)
        | [] => (parseItems fuel rest).map fun p => (.list p.1, p.2)
      else if c = '\x7b' then
        match skipWs rest with
        | c2 :: r =>
          if c2 = '\x7d' then some (.dict [], r)
          else (parseEntries fuel rest).map fun p => (.dict p.1, p.2)
        | [] => (parseEntries fuel rest).map fun p => (.dict p.1, p.2)
      else if c = '-' then
        match rest with
        | c2 :: _ =>
          if isDigitChar c2 then
            let p := parseDigitsAux 0 rest
            some (.int (-(p.1 : Int)), p.2)
          else Option.none
        | [] => Option.none
      else if isDigitChar c then
        let p := parseDigitsAux 0 (c :: rest)
        some (.int (p.1 : Int), p.2)
      else Option.none

/-- One or more comma-separated array items followed by `]`, and the rest
of the input. -/
def parseItems : Nat → List Char → Option (List PyVal × List Char)
  | 0, _ => Option.none
  | fuel + 1, cs => do
    let (v, r) ← parseVal fuel cs
    match skipWs r with
    | c :: r2 =>
      if c = ',' then do
        let (vs, r3) ← parseItems fuel r2
        some (v :: vs, r3)
      else if c = ']' then some ([v], r2)
      else Option.none
    | [] => Option.none

/-- One or more comma-separated `"key": value` object entries followed by
`}`, and the rest of the input. -/
def parseEntries : Nat → List Char → Option (List (String × PyVal) × List Char)
  | 0, _ => Option.none
  | fuel + 1, cs =>
    match skipWs cs with
    | c :: rest =>
      if c = '"' then do
        let (k, r1) ← parseStringBody (rest.length + 1) rest
        match skipWs r1 with
        | c2 :: r2 =>
          if c2 = ':' then do
            let (v, r3) ← parseVal fuel r2
            match skipWs r3 with
            | c3 :: r4 =>
              if c3 = ',' then do
                let (es, r5) ← parseEntries fuel r4
                some ((⟨k⟩, v) :: es, r5)
              else if c3 = '\x7d' then some ([(⟨k⟩, v)], r4)
              else Option.none
            | [] => Option.none
          else Option.none
        | [] => Option.none
      else Option.none
    | [] => Option.none

end

/-- The model of `json.loads`: parse one value, allow trailing whitespace,
reject trailing content. -/
def loads (s : String) : Option PyVal :=
  match parseVal (s.data.length + 1) s.data with
  | some (v, rest) => if skipWs rest = [] then some v else Option.none
  | Option.none => Option.none

mutual

/-- Fuel sufficient for `parseVal` to parse the output of `dumps`. -/
def needV : PyVal → Nat
  | .str _ => 1
  | .int _ => 1
  | .bool _ => 1
  | .none => 1
  | .list xs => 1 + needItems xs
  | .dict es => 1 + needEntries es
termination_by v => sizeOf v

/-- Fuel sufficient for `parseItems` on the output of `dumpsItems`. -/
def needItems : List PyVal → Nat
  | [] => 0
  | x :: xs => 1 + needV x + needItems xs
termination_by xs => sizeOf xs

/-- Fuel sufficient for `parseEntries` on the output of `dumpsEntries`. -/
def needEntries : List (String × PyVal) → Nat
  | [] => 0
  | (_, v) :: es => 1 + needV v + needEntries es
termination_by es => sizeOf es

end

/-- Two lowercase hexadecimal digits of `n < 0x100` (as in Python's `\xHH`). -/
def toHex2 (n : Nat) : List Char :=
  [hexDigitChar (n / 16 % 16), hexDigitChar (n % 16)]

/-- The quote character Python's `repr` picks for a string: single quotes,
unless the string contains a single quote and no double quote. -/
def pyReprQuote (s : String) : Char :=
  if s.data.contains '\'' ∧ ¬ s.data.contains '"' then '"' else '\''

/-- How Python's `repr` of a string renders one character, `q` being the
chosen quote: backslash, the quote and the named control characters get a
two-character escape and other non-printable characters a `\xHH` escape.
Model note: the characters the model escapes as non-printable are those
below `0x20` and in `0x7f..0xa0`; Python additionally consults the Unicode
category tables for higher code points, which the model takes as
printable. -/
def pyReprEscChar (q : Char) (c : Char) : List Char :=
  if c = '\\' then ['\\', '\\']
  else if c = q then ['\\', q]
  else if c = '\n' then ['\\', 'n']
  else if c = '\r' then ['\\', 'r']
  else if c = '\t' then ['\\', 't']
  else if c.toNat < 0x20 ∨ (0x7f ≤ c.toNat ∧ c.toNat ≤ 0xa0) then
    '\\' :: 'x' :: toHex2 c.toNat
  else [c]

/-- `pyReprEscChar` applied to every character in turn. -/
def pyReprEscList (q : Char) : List Char → List Char
  | [] => []
  | c :: cs => pyReprEscChar q c ++ pyReprEscList q cs

/-- Python's `repr` of a string: the escaped characters between the chosen
quotes. -/
def pyStrRepr (s : String) : String :=
  ⟨pyReprQuote s :: (pyReprEscList (pyReprQuote s) s.data ++ [pyReprQuote s])⟩

mutual

/-- Python's `repr` of a value of the modelled shapes. -/
def pyRepr : PyVal → String
  | .str s => pyStrRepr s
  | .int n => intRepr n
  | .bool b => if b then ("True") else ("False")
  | .none => "None"
  | .list [] => "[]"
  | .list (x :: xs) => "[" ++ pyReprItems x xs ++ "]"
  | .dict [] => "\x7b\x7d"
  | .dict (e :: es) => "\x7b" ++ pyReprEntries e es ++ "\x7d"
termination_by v => sizeOf v

/-- The comma-separated body of `repr` of a list. -/
def pyReprItems : PyVal → List PyVal → String
  | x, [] => pyRepr x
  | x, y :: ys => pyRepr x ++ ", " ++ pyReprItems y ys
termination_by x xs => sizeOf (x :: xs)

/-- The comma-separated body of `repr` of a dict. -/
def pyReprEntries : String × PyVal → List (String × PyVal) → String
  | (k, v), [] => pyStrRepr k ++ ": " ++ pyRepr v
  | (k, v), e :: es => pyStrRepr k ++ ": " ++ pyRepr v ++ ", " ++ pyReprEntries e es
termination_by e es => sizeOf (e :: es)

end

/-- Python's `str` of a value of the modelled shapes: a string stands for
itself, everything else prints as its `repr`. -/
def pyStr : PyVal → String
  | .str s => s
  | v => pyRepr v

/-- Python's `repr(type(content))`, as an f-string renders
`{type(content)}`. -/
def pyTypeRepr : PyVal → String
  | .str _ => "<class 'str'>"
  | .int _ => "<class 'int'>"
  | .bool _ => "<class 'bool'>"
  | .list _ => "<class 'list'>"
  | .dict _ => "<class 'dict'>"
  | .none => "<class 'NoneType'>"

/-- The message of the `ValueError` raised by `_get_text` on a non-string
sample in text mode.  The source writes the f-string over three physical
lines joined with backslash continuations, so the message keeps the 20
spaces of indentation of each continuation line. -/
def typeMismatchMsg (content : PyVal) : String :=
  "Expected page_content is string, got " ++ pyTypeRepr content ++
    " instead.                     Set `text_content=False` if the desired input for                     `page_content` is not a string"

/-- The metadata dict `dict(source=..., seq_num=...)` built by `_parse`. -/
structure Metadata where
  source : String
  seq_num : Nat
deriving DecidableEq

/-- A `langchain` `Document`: a `page_content` string and its metadata. -/
structure Document where
  page_content : String
  metadata : Metadata
deriving DecidableEq

/-- A compiled `jq` program, as `_parse` uses it: evaluating it on one
parsed JSON value yields zero or more samples (or raises). -/
def JqProgram : Type := PyVal → Except PyErr (List PyVal)

/-- The `jq` library as `__init__` uses it: `jq.compile` turns a schema
text into a compiled program (or raises). -/
structure JqLib where
  compile : String → Except PyErr JqProgram

/-- Which of the two optional external libraries can be imported. -/
structure PyEnv where
  jqAvailable : Bool
  azureAvailable : Bool

/-- The reachable behaviour of the `azure.cosmos` client chain used by
`load`: `CosmosClient.from_connection_string`, `get_database_client`,
`get_container_client` and `query_items`, folded into one call from the
connection string, database id, container id, query and cross-partition
flag to the query's item payloads.  The outer `Except` is a failure of the
client chain or of starting the query; each element's `Except` is a failure
of the lazy result iteration at that position. -/
structure CosmosWorld where
  query_items : String → String → String → String → Bool →
    Except PyErr (List (Except PyErr String))

/-- The state of a constructed `AzureCosmosDBLoader`: exactly the
attributes `__init__` assigns, in source order.  The class (and its base
`BaseLoader`) assigns no other attribute. -/
structure AzureCosmosDBLoader where
  _conn_str : String
  database : String
  container : String
  query : String
  _enable_cross_partition_query : Bool
  _jq_schema : JqProgram
  _text_content : Bool

/-- `AzureCosmosDBLoader.__init__`: raises `ImportError` when `jq` cannot
be imported (before anything is stored), otherwise compiles the schema and
stores the configuration. -/
def AzureCosmosDBLoader.__init__ (env : PyEnv) (jqLib : JqLib)
    (conn_str database container query jq_schema : String)
    (enable_cross_partition_query text_content : Bool) :
    Except PyErr AzureCosmosDBLoader :=
  if !env.jqAvailable then
    .error (.importError "jq package not found, please install it with `pip install jq`")
  else do
    let prog ← jqLib.compile jq_schema
    .ok ⟨conn_str, database, container, query, enable_cross_partition_query,
         prog, text_content⟩

/-- `self.file_path`, as `_parse` reads it when building the metadata:
neither `__init__` nor the class body nor `BaseLoader` ever assigns a
`file_path` attribute, so Python's attribute lookup raises
`AttributeError`. -/
def AzureCosmosDBLoader.file_path (_self : AzureCosmosDBLoader) :
    Except PyErr String :=
  .error (.attributeError "'AzureCosmosDBLoader' object has no attribute 'file_path'")

/-- `AzureCosmosDBLoader._get_text`: raises `ValueError` on a non-string
sample when `text_content` is set; otherwise returns the string itself, a
dict as `json.dumps` output (empty string for an empty dict), and any other
value as `str(...)` (empty string for `None`). -/
def AzureCosmosDBLoader._get_text (self : AzureCosmosDBLoader)
    (sample : PyVal) (_metadata : Metadata) : Except PyErr String :=
  let content := sample
  if self._text_content && !content.isStr then
    .error (.valueError (typeMismatchMsg content))
  else
    match content with
    | .str s => .ok s
    | .dict [] => .ok ""
    | .dict es => .ok (dumps (.dict es))
    | .none => .ok ""
    | v => .ok (pyStr v)

/-- The loop body of `_parse`: `for i, sample in enumerate(data, len(docs) + 1)`,
with `i` starting at one past the documents already accumulated.  Each
iteration builds `dict(source=str(self.file_path), seq_num=i)`, extracts
the text and appends a `Document`. -/
def AzureCosmosDBLoader.parseLoop (self : AzureCosmosDBLoader) :
    List PyVal → Nat → List Document → Except PyErr (List Document)
  | [], _, docs => .ok docs
  | sample :: rest, i, docs => do
    let fp ← self.file_path
    let metadata : Metadata := ⟨fp, i⟩
    let text ← self._get_text sample metadata
    self.parseLoop rest (i + 1) (docs ++ [⟨text, metadata⟩])

/-- `AzureCosmosDBLoader._parse`: decode the item payload as JSON, run the
compiled `jq` program on it, and append one document per resulting
sample. -/
def AzureCosmosDBLoader._parse (self : AzureCosmosDBLoader)
    (content : String) (docs : List Document) : Except PyErr (List Document) := do
  let parsed ← match loads content with
    | some v => Except.ok v
    | Option.none => Except.error (.valueError "Expecting value: json.loads failed")
  let data ← self._jq_schema parsed
  self.parseLoop data (docs.length + 1) docs

/-- The `for item in container.query_items(...)` loop of `load`: each
iteration either fails (a lazy-iteration error or `_parse` raising) or
extends the accumulated documents. -/
def AzureCosmosDBLoader.loadItems (self : AzureCosmosDBLoader) :
    List (Except PyErr String) → List Document → Except PyErr (List Document)
  | [], docs => .ok docs
  | itemRes :: rest, docs => do
    let item ← itemRes
    let docs2 ← self._parse item docs
    self.loadItems rest docs2

/-- `AzureCosmosDBLoader.load`: raises `ImportError` when `azure.cosmos`
cannot be imported (before touching any client), otherwise opens the client
chain, runs the query and parses every item into documents. -/
def AzureCosmosDBLoader.load (self : AzureCosmosDBLoader) (env : PyEnv)
    (world : CosmosWorld) : Except PyErr (List Document) :=
  if !env.azureAvailable then
    .error (.importError "Could not import azure cosmos python package. Please install it with `pip install azure-cosmos`.")
  else do
    let items ← world.query_items self._conn_str self.database self.container
      self.query self._enable_cross_partition_query
    self.loadItems items []

/-- The compiled identity filter (what `jq.compile(".")` yields): one
sample per item, the item itself. -/
def jqIdentity : JqProgram := fun v => .ok [v]

/-- A loader as constructed with the identity filter and the default
`text_content=True`. -/
def sampleLoaderText : AzureCosmosDBLoader :=
  ⟨"AccountEndpoint=https://x;AccountKey=y", "db", "cont", "SELECT * FROM c",
   true, jqIdentity, true⟩

/-- A loader as constructed with the identity filter and
`text_content=False`. -/
def sampleLoaderRaw : AzureCosmosDBLoader :=
  ⟨"AccountEndpoint=https://x;AccountKey=y", "db", "cont", "SELECT * FROM c",
   true, jqIdentity, false⟩

/-- A client world whose query yields the two JSON items `"x"` and `"y"`. -/
def worldTwoItems : CosmosWorld :=
  ⟨fun _ _ _ _ _ => .ok [.ok ("\"x\""), .ok ("\"y\"")]⟩

/-- A client world whose query yields the one JSON item `{"a": 1}`. -/
def worldOneDict : CosmosWorld :=
  ⟨fun _ _ _ _ _ => .ok [.ok ("\x7b\"a\": 1\x7d")]⟩

/-- A client world whose query starts returning items but fails during the
lazy iteration. -/
def worldFailIter : CosmosWorld :=
  ⟨fun _ _ _ _ _ => .ok [.error (.valueError "connection reset during iteration")]⟩

/-- Processing a concatenation of query items processes the first part and,
when that succeeds, continues with the accumulated documents. -/
theorem loadItems_append (l : AzureCosmosDBLoader)
    (a b : List (Except PyErr String)) (docs : List Document) :
    l.loadItems (a ++ b) docs =
      match l.loadItems a docs with
      | .ok docs2 => l.loadItems b docs2
      | .error e => .error e := by
  induction a generalizing docs with
  | nil => simp [AzureCosmosDBLoader.loadItems]
  | cons r rest ih =>
    cases r with
    | error e => simp [AzureCosmosDBLoader.loadItems, Except.bind, Bind.bind]
    | ok item =>
      cases h : l._parse item docs with
      | error e =>
        simp [AzureCosmosDBLoader.loadItems, Except.bind, Bind.bind, h]
      | ok docs2 =>
        simp [AzureCosmosDBLoader.loadItems, Except.bind, Bind.bind, h, ih]

/-- C4: for every sample that is a string — whatever `text_content` is, and
including the empty string — `_get_text` returns the sample verbatim, so
the resulting `page_content` equals the sample exactly. -/
theorem get_text_string_identity (l : AzureCosmosDBLoader) (s : String)
    (md : Metadata) : l._get_text (.str s) md = .ok s := by
  simp [AzureCosmosDBLoader._get_text, PyVal.isStr]

/-- C3: for every non-string sample, when `text_content` is enabled the
text-extraction step raises `ValueError` (so no document text is produced
for that sample), and the message renders the sample's actual Python type
and advises setting `text_content=False`. -/
theorem get_text_non_string_text_mode_value_error (l : AzureCosmosDBLoader)
    (sample : PyVal) (md : Metadata)
    (htc : l._text_content = true) (hs : sample.isStr = false) :
    l._get_text sample md =
      .error (.valueError ("Expected page_content is string, got " ++
        pyTypeRepr sample ++
        " instead.                     Set `text_content=False` if the desired input for                     `page_content` is not a string")) := by
  simp [AzureCosmosDBLoader._get_text, htc, hs, typeMismatchMsg]

/-- Witness for C3 at the concrete sample `5`. -/
theorem get_text_non_string_text_mode_value_error_witness :
    sampleLoaderText._get_text (.int 5) ⟨"path", 1⟩ =
      .error (.valueError ("Expected page_content is string, got <class 'int'> instead.                     Set `text_content=False` if the desired input for                     `page_content` is not a string")) :=
  get_text_non_string_text_mode_value_error sampleLoaderText (.int 5) ⟨"path", 1⟩
    rfl rfl

/-- C6: for the empty mapping sample with `text_content` disabled,
`_get_text` returns exactly the empty string — an explicit special case,
distinct from the JSON serialization of an empty object, which is the
two-character text of an opening and a closing brace. -/
theorem get_text_empty_dict_empty_string (l : AzureCosmosDBLoader)
    (md : Metadata) (htc : l._text_content = false) :
    l._get_text (.dict []) md = .ok ("") ∧ dumps (.dict []) = "\x7b\x7d" := by
  refine ⟨?_, by simp [dumps]⟩
  simp [AzureCosmosDBLoader._get_text, htc, PyVal.isStr]

/-- Witness for C6 at a concrete loader. -/
theorem get_text_empty_dict_empty_string_witness :
    sampleLoaderRaw._get_text (.dict []) ⟨"path", 1⟩ = .ok ("") ∧
      dumps (.dict []) = "\x7b\x7d" :=
  get_text_empty_dict_empty_string sampleLoaderRaw ⟨"path", 1⟩ rfl

/-- C7: for every sample that is neither a string nor a mapping, when
`text_content` is disabled `_get_text` returns the sample's `str(...)`
textual representation, except that a `None` sample yields the empty
string. -/
theorem get_text_other_types_str_repr (l : AzureCosmosDBLoader)
    (sample : PyVal) (md : Metadata) (htc : l._text_content = false)
    (hs : sample.isStr = false) (hd : sample.isDict = false) :
    (sample = .none → l._get_text sample md = .ok ("")) ∧
    (sample ≠ .none → l._get_text sample md = .ok (pyStr sample)) := by
  cases sample <;>
    simp_all [AzureCosmosDBLoader._get_text, PyVal.isStr, PyVal.isDict, pyStr]

/-- Witness for C7 at the concrete samples `None` and `True`. -/
theorem get_text_other_types_str_repr_witness :
    sampleLoaderRaw._get_text .none ⟨"path", 1⟩ = .ok ("") ∧
      sampleLoaderRaw._get_text (.bool true) ⟨"path", 1⟩ = .ok ("True") := by
  constructor
  · exact (get_text_other_types_str_repr sampleLoaderRaw .none ⟨"path", 1⟩
      rfl rfl rfl).1 rfl
  · have h := (get_text_other_types_str_repr sampleLoaderRaw (.bool true) ⟨"path", 1⟩
      rfl rfl rfl).2 (by intro h; cases h)
    simpa [pyStr, pyRepr] using h

/-- C10: with `text_content` disabled the text extraction is total: every
sample of every modelled JSON shape yields a string and no exception, so
the type-mismatch branch is reachable only with `text_content` enabled. -/
theorem get_text_total_when_text_content_disabled (l : AzureCosmosDBLoader)
    (sample : PyVal) (md : Metadata) (htc : l._text_content = false) :
    ∃ s : String, l._get_text sample md = .ok s := by
  cases sample with
  | str s => exact ⟨s, by simp [AzureCosmosDBLoader._get_text, PyVal.isStr]⟩
  | dict es =>
    cases es with
    | nil =>
      exact ⟨"", by simp [AzureCosmosDBLoader._get_text, htc, PyVal.isStr]⟩
    | cons e es =>
      exact ⟨dumps (.dict (e :: es)),
        by simp [AzureCosmosDBLoader._get_text, htc, PyVal.isStr]⟩
  | int n =>
    exact ⟨pyStr (.int n),
      by simp [AzureCosmosDBLoader._get_text, htc, PyVal.isStr]⟩
  | bool b =>
    exact ⟨pyStr (.bool b),
      by simp [AzureCosmosDBLoader._get_text, htc, PyVal.isStr]⟩
  | list xs =>
    exact ⟨pyStr (.list xs),
      by simp [AzureCosmosDBLoader._get_text, htc, PyVal.isStr]⟩
  | none =>
    exact ⟨"", by simp [AzureCosmosDBLoader._get_text, htc, PyVal.isStr]⟩

/-- Witness for C10 at the concrete sample `[1]`. -/
theorem get_text_total_when_text_content_disabled_witness :
    ∃ s : String, sampleLoaderRaw._get_text (.list [.int 1]) ⟨"path", 1⟩ = .ok s :=
  get_text_total_when_text_content_disabled sampleLoaderRaw (.list [.int 1])
    ⟨"path", 1⟩ rfl

/-- C8: with the `jq` library unavailable, construction fails at once with
the install-guidance `ImportError`, whatever the arguments — no loader
state is ever produced; with `azure.cosmos` unavailable, `load` fails at
once with its install-guidance `ImportError`, for every loader and every
client world — so no client is ever opened, and neither error arises deep
inside query evaluation. -/
theorem import_errors_eager (envJ : PyEnv) (jqLib : JqLib)
    (cs db cont q js : String) (cp tc : Bool) (envA : PyEnv)
    (world : CosmosWorld) (l : AzureCosmosDBLoader)
    (hjq : envJ.jqAvailable = false) (haz : envA.azureAvailable = false) :
    AzureCosmosDBLoader.__init__ envJ jqLib cs db cont q js cp tc =
      .error (.importError "jq package not found, please install it with `pip install jq`") ∧
    l.load envA world =
      .error (.importError "Could not import azure cosmos python package. Please install it with `pip install azure-cosmos`.") := by
  constructor
  · simp [AzureCosmosDBLoader.__init__, hjq]
  · simp [AzureCosmosDBLoader.load, haz]

/-- Witness for C8 at concrete environments, arguments and world. -/
theorem import_errors_eager_witness :
    AzureCosmosDBLoader.__init__ ⟨false, true⟩ ⟨fun _ => .ok jqIdentity⟩
      ("cs") ("db") ("cont") ("q") (".") true true =
      .error (.importError "jq package not found, please install it with `pip install jq`") ∧
    sampleLoaderText.load ⟨true, false⟩ worldTwoItems =
      .error (.importError "Could not import azure cosmos python package. Please install it with `pip install azure-cosmos`.") :=
  import_errors_eager ⟨false, true⟩ ⟨fun _ => .ok jqIdentity⟩
    ("cs") ("db") ("cont") ("q") (".") true true ⟨true, false⟩
    worldTwoItems sampleLoaderText rfl rfl

/-- C9: `load` is all-or-nothing.  If the query's lazy iteration fails at
any position, or parsing any item raises, after a prefix of items was
already processed into `docsPre` documents, then the whole call raises that
error: the accumulated documents are discarded and no partial list is
returned. -/
theorem load_no_partial_results (env : PyEnv) (world : CosmosWorld)
    (l : AzureCosmosDBLoader) (pre rest : List (Except PyErr String))
    (bad : Except PyErr String) (docsPre : List Document) (e : PyErr)
    (hA : env.azureAvailable = true)
    (hq : world.query_items l._conn_str l.database l.container l.query
      l._enable_cross_partition_query = .ok (pre ++ bad :: rest))
    (hpre : l.loadItems pre [] = .ok docsPre)
    (hbad : bad = .error e ∨ ∃ it, bad = .ok it ∧ l._parse it docsPre = .error e) :
    l.load env world = .error e := by
  have hload : l.load env world = l.loadItems (pre ++ bad :: rest) [] := by
    simp [AzureCosmosDBLoader.load, hA, hq, Except.bind, Bind.bind]
  rw [hload, loadItems_append, hpre]
  rcases hbad with h | ⟨it, hit, hparse⟩
  · subst h
    simp [AzureCosmosDBLoader.loadItems, Except.bind, Bind.bind]
  · subst hit
    simp [AzureCosmosDBLoader.loadItems, Except.bind, Bind.bind, hparse]

/-- Witness for C9: a run whose lazy iteration fails on the first item. -/
theorem load_no_partial_results_witness :
    sampleLoaderText.load ⟨true, true⟩ worldFailIter =
      .error (.valueError "connection reset during iteration") :=
  load_no_partial_results ⟨true, true⟩ worldFailIter sampleLoaderText [] []
    (.error (.valueError "connection reset during iteration")) [] _
    rfl rfl rfl (Or.inl rfl)

/-- C1 (failing run): on a query returning the two string items `"x"` and
`"y"` — which should produce two documents with `seq_num` 1 and 2 — `load`
instead raises `AttributeError`, because building the very first metadata
dict reads `self.file_path`, an attribute no code ever assigns.  No
document list, and hence no `seq_num` sequence, is ever delivered for a
run with at least one sample. -/
theorem load_two_string_items_attribute_error :
    sampleLoaderText.load ⟨true, true⟩ worldTwoItems =
      .error (.attributeError "'AzureCosmosDBLoader' object has no attribute 'file_path'") := by
  rfl

/-- C2 (failing run): on a query returning the single item `{"a": 1}`,
building the metadata `{source, seq_num}` for its sample does not succeed:
`str(self.file_path)` raises `AttributeError` because the attribute is
never assigned, so `load` raises instead of returning a document whose
metadata carries a string `source`. -/
theorem load_single_item_attribute_error :
    sampleLoaderRaw.load ⟨true, true⟩ worldOneDict =
      .error (.attributeError "'AzureCosmosDBLoader' object has no attribute 'file_path'") := by
  rfl

/-- A valid code point round-trips through `Char.ofNat`. -/
theorem char_toNat_ofNat_valid (n : Nat) (h : n.isValidChar) :
    (Char.ofNat n).toNat = n := by
  unfold Char.ofNat
  rw [dif_pos h]
  rfl

/-- Characters with different code points differ. -/
theorem char_ne_of_toNat_ne (a b : Char) (h : a.toNat ≠ b.toNat) : a ≠ b :=
  fun hab => h (congrArg Char.toNat hab)

/-- Every character's code point is a valid scalar value. -/
theorem char_toNat_valid (c : Char) :
    c.toNat < 0xd800 ∨ (0xe000 ≤ c.toNat ∧ c.toNat < 0x110000) := by
  have h := c.valid
  unfold UInt32.isValidChar Nat.isValidChar at h
  have hv : c.toNat = c.val.toNat := rfl
  rw [hv]
  omega

/-- A hexadecimal digit character produced by `hexDigitChar` decodes to its
value. -/
theorem hexVal_hexDigitChar (m : Nat) (h : m < 16) :
    hexVal (hexDigitChar m) = some m := by
  unfold hexDigitChar hexVal
  by_cases h10 : m < 10
  · rw [if_pos h10]
    have ht : (Char.ofNat (48 + m)).toNat = 48 + m :=
      char_toNat_ofNat_valid _ (Or.inl (by omega))
    rw [if_pos (by omega)]
    simp [ht]
  · rw [if_neg h10]
    have ht : (Char.ofNat (87 + m)).toNat = 87 + m :=
      char_toNat_ofNat_valid _ (Or.inl (by omega))
    rw [if_neg (by omega), if_pos (by omega)]
    simp [ht]

/-- The decimal digit character of `m < 10` and its code point. -/
theorem toNat_digit_char (m : Nat) (h : m < 10) :
    (Char.ofNat (48 + m)).toNat = 48 + m :=
  char_toNat_ofNat_valid _ (Or.inl (by omega))

/-- Decimal digit characters are recognized by `isDigitChar`. -/
theorem isDigitChar_digit_char (m : Nat) (h : m < 10) :
    isDigitChar (Char.ofNat (48 + m)) = true := by
  simp [isDigitChar, toNat_digit_char m h]
  omega

/-- A decimal digit character is not JSON whitespace and is none of the
punctuation characters the parser dispatches on. -/
theorem isDigitChar_facts (c : Char) (h : isDigitChar c = true) :
    isJsonWs c = false ∧ c ≠ '"' ∧ c ≠ 't' ∧ c ≠ 'f' ∧ c ≠ 'n' ∧
      c ≠ '[' ∧ c ≠ '\x7b' ∧ c ≠ '-' ∧ c ≠ ']' ∧ c ≠ '\x7d' ∧ c ≠ ',' := by
  simp only [isDigitChar, Bool.and_eq_true, decide_eq_true_eq] at h
  refine ⟨?_, ?_, ?_, ?_, ?_, ?_, ?_, ?_, ?_, ?_, ?_⟩
  · simp only [isJsonWs, Bool.or_eq_false_iff, decide_eq_false_iff_not]
    refine ⟨⟨⟨?_, ?_⟩, ?_⟩, ?_⟩
    all_goals exact char_ne_of_toNat_ne _ _ (by simp; omega)
  all_goals exact char_ne_of_toNat_ne _ _ (by simp; omega)

/-- `skipWs` does not move past a non-whitespace head. -/
theorem skipWs_cons_not_ws (c : Char) (l : List Char) (h : isJsonWs c = false) :
    skipWs (c :: l) = c :: l := by
  simp [skipWs, List.dropWhile_cons, h]

/-- `skipWs` absorbs a whitespace head. -/
theorem skipWs_cons_ws (c : Char) (l : List Char) (h : isJsonWs c = true) :
    skipWs (c :: l) = skipWs l := by
  simp [skipWs, List.dropWhile_cons, h]

/-- `natToDigits` always starts with a decimal digit character. -/
theorem natToDigits_head (n : Nat) :
    ∃ d t, natToDigits n = d :: t ∧ isDigitChar d = true := by
  induction n using Nat.strong_induction_on with
  | _ n ih =>
    rw [natToDigits]
    by_cases h : n < 10
    · rw [dif_pos h]
      exact ⟨_, _, rfl, isDigitChar_digit_char n h⟩
    · rw [dif_neg h]
      obtain ⟨d, t, hd, hdig⟩ := ih (n / 10) (Nat.div_lt_self (by omega) (by omega))
      exact ⟨d, t ++ [Char.ofNat (48 + n % 10)], by rw [hd]; rfl, hdig⟩

/-- Every character of `natToDigits` is a decimal digit character. -/
theorem natToDigits_all_digits (n : Nat) :
    ∀ c ∈ natToDigits n, isDigitChar c = true := by
  induction n using Nat.strong_induction_on with
  | _ n ih =>
    rw [natToDigits]
    by_cases h : n < 10
    · rw [dif_pos h]
      intro c hc
      simp at hc
      subst hc
      exact isDigitChar_digit_char n h
    · rw [dif_neg h]
      intro c hc
      rw [List.mem_append] at hc
      rcases hc with hc | hc
      · exact ih (n / 10) (Nat.div_lt_self (by omega) (by omega)) c hc
      · simp at hc
        subst hc
        exact isDigitChar_digit_char (n % 10) (by omega)

/-- Running `parseDigitsAux` over a digit run followed by a non-digit
consumes exactly the run and folds up its value. -/
theorem parseDigitsAux_run (ds : List Char) :
    ∀ acc rest, (∀ c ∈ ds, isDigitChar c = true) →
    (∀ c, rest.head? = some c → isDigitChar c = false) →
    parseDigitsAux acc (ds ++ rest) =
      (ds.foldl (fun a c => a * 10 + (c.toNat - 48)) acc, rest) := by
  induction ds with
  | nil =>
    intro acc rest _ hrest
    cases rest with
    | nil => simp [parseDigitsAux]
    | cons c t => simp [parseDigitsAux, hrest c rfl]
  | cons d dt ih =>
    intro acc rest hds hrest
    have hd : isDigitChar d = true := hds d (List.mem_cons_self d dt)
    simp only [List.cons_append, parseDigitsAux, hd, if_pos, List.foldl_cons]
    exact ih _ rest (fun c hc => hds c (List.mem_cons_of_mem d hc)) hrest

/-- Folding the decimal digits of `n` onto `acc` yields
`acc * 10 ^ (number of digits) + n`. -/
theorem foldl_natToDigits (n : Nat) :
    ∀ acc, (natToDigits n).foldl (fun a c => a * 10 + (c.toNat - 48)) acc =
      acc * 10 ^ (natToDigits n).length + n := by
  induction n using Nat.strong_induction_on with
  | _ n ih =>
    intro acc
    rw [natToDigits]
    by_cases h : n < 10
    · rw [dif_pos h]
      simp [toNat_digit_char n h]
    · rw [dif_neg h]
      rw [List.foldl_append, ih (n / 10) (Nat.div_lt_self (by omega) (by omega)) acc]
      simp only [List.foldl_cons, List.foldl_nil, List.length_append,
        List.length_cons, List.length_nil]
      rw [toNat_digit_char (n % 10) (by omega)]
      rw [pow_succ]
      have hdm := Nat.div_add_mod n 10
      ring_nf
      omega


/-- Decoding one `\uXXXX` escape of a non-surrogate code point. -/
theorem unescapeEsc_u_single (k : Nat) (hk : k < 0x10000)
    (hval : k < 0xd800 ∨ 0xe000 ≤ k) (rest : List Char) :
    unescapeEsc ('u' :: (toHex4 k ++ rest)) = some (Char.ofNat k, rest) := by
  have e1 := hexVal_hexDigitChar (k / 4096 % 16) (Nat.mod_lt _ (by omega))
  have e2 := hexVal_hexDigitChar (k / 256 % 16) (Nat.mod_lt _ (by omega))
  have e3 := hexVal_hexDigitChar (k / 16 % 16) (Nat.mod_lt _ (by omega))
  have e4 := hexVal_hexDigitChar (k % 16) (Nat.mod_lt _ (by omega))
  have hkk : ((k / 4096 % 16 * 16 + k / 256 % 16) * 16 + k / 16 % 16) * 16 +
      k % 16 = k := by omega
  simp only [toHex4, List.cons_append, List.nil_append, unescapeEsc, ite_true,
    e1, e2, e3, e4, Option.bind_eq_bind, Option.some_bind, hkk]
  rw [if_pos hval]

/-- Decoding a high-surrogate `\uXXXX` escape followed by a low-surrogate
one yields the combined code point. -/
theorem unescapeEsc_u_pair (hi lo : Nat)
    (hhi : 0xd800 ≤ hi ∧ hi < 0xdc00) (hlo : 0xdc00 ≤ lo ∧ lo < 0xe000)
    (rest : List Char) :
    unescapeEsc ('u' :: (toHex4 hi ++ ('\\' :: 'u' :: (toHex4 lo ++ rest)))) =
      some (Char.ofNat (0x10000 + (hi - 0xd800) * 0x400 + (lo - 0xdc00)), rest) := by
  have e1 := hexVal_hexDigitChar (hi / 4096 % 16) (Nat.mod_lt _ (by omega))
  have e2 := hexVal_hexDigitChar (hi / 256 % 16) (Nat.mod_lt _ (by omega))
  have e3 := hexVal_hexDigitChar (hi / 16 % 16) (Nat.mod_lt _ (by omega))
  have e4 := hexVal_hexDigitChar (hi % 16) (Nat.mod_lt _ (by omega))
  have f1 := hexVal_hexDigitChar (lo / 4096 % 16) (Nat.mod_lt _ (by omega))
  have f2 := hexVal_hexDigitChar (lo / 256 % 16) (Nat.mod_lt _ (by omega))
  have f3 := hexVal_hexDigitChar (lo / 16 % 16) (Nat.mod_lt _ (by omega))
  have f4 := hexVal_hexDigitChar (lo % 16) (Nat.mod_lt _ (by omega))
  have hkk : ((hi / 4096 % 16 * 16 + hi / 256 % 16) * 16 + hi / 16 % 16) * 16 +
      hi % 16 = hi := by omega
  have hll : ((lo / 4096 % 16 * 16 + lo / 256 % 16) * 16 + lo / 16 % 16) * 16 +
      lo % 16 = lo := by omega
  simp only [toHex4, List.cons_append, List.nil_append, unescapeEsc, ite_true,
    e1, e2, e3, e4, f1, f2, f3, f4, Option.bind_eq_bind, Option.some_bind, hkk, hll]
  rw [if_neg (by omega), if_pos (by omega), if_pos ⟨trivial, trivial⟩, if_pos hlo]

/-- One `\uXXXX` escape (non-surrogate) at the front of a string body. -/
theorem parseStringBody_u_single_step (k : Nat) (hk : k < 0x10000)
    (hval : k < 0xd800 ∨ 0xe000 ≤ k) (fuel : Nat) (rest s r : List Char)
    (h : parseStringBody fuel rest = some (s, r)) :
    parseStringBody (fuel + 1) (('\\' :: 'u' :: toHex4 k) ++ rest) =
      some (Char.ofNat k :: s, r) := by
  simp only [List.cons_append, List.append_eq, parseStringBody]
  rw [if_neg (by decide)]
  rw [unescapeEsc_u_single k hk hval rest]
  simp [h]

/-- A surrogate-pair `\uXXXX\uXXXX` escape at the front of a string body. -/
theorem parseStringBody_u_pair_step (hi lo : Nat)
    (hhi : 0xd800 ≤ hi ∧ hi < 0xdc00) (hlo : 0xdc00 ≤ lo ∧ lo < 0xe000)
    (fuel : Nat) (rest s r : List Char)
    (h : parseStringBody fuel rest = some (s, r)) :
    parseStringBody (fuel + 1)
      (('\\' :: 'u' :: toHex4 hi) ++ (('\\' :: 'u' :: toHex4 lo) ++ rest)) =
      some (Char.ofNat (0x10000 + (hi - 0xd800) * 0x400 + (lo - 0xdc00)) :: s, r) := by
  simp only [List.cons_append, List.append_eq, parseStringBody]
  rw [if_neg (by decide)]
  rw [unescapeEsc_u_pair hi lo hhi hlo rest]
  simp [h]

/-- Parsing resumes correctly after one escaped character: if the parser
accepts `rest` as a string body with `fuel` steps, it accepts
`jsonEscapeChar c ++ rest` with one more step as the same body with `c`
prepended. -/
theorem parseStringBody_escape_step (c : Char) (fuel : Nat) (rest s r : List Char)
    (h : parseStringBody fuel rest = some (s, r)) :
    parseStringBody (fuel + 1) (jsonEscapeChar c ++ rest) = some (c :: s, r) := by
  unfold jsonEscapeChar
  by_cases h1 : c = '"'
  · subst h1
    simp [parseStringBody, unescapeEsc, h]
  rw [if_neg h1]
  by_cases h2 : c = '\\'
  · subst h2
    simp [parseStringBody, unescapeEsc, h]
  rw [if_neg h2]
  by_cases h3 : c = '\n'
  · subst h3
    simp [parseStringBody, unescapeEsc, h]
  rw [if_neg h3]
  by_cases h4 : c = '\r'
  · subst h4
    simp [parseStringBody, unescapeEsc, h]
  rw [if_neg h4]
  by_cases h5 : c = '\t'
  · subst h5
    simp [parseStringBody, unescapeEsc, h]
  rw [if_neg h5]
  by_cases h6 : c.toNat = 8
  · rw [if_pos h6]
    have hc : Char.ofNat 8 = c := by rw [← h6, Char.ofNat_toNat]
    simp [parseStringBody, unescapeEsc, h]
    exact hc
  rw [if_neg h6]
  by_cases h7 : c.toNat = 12
  · rw [if_pos h7]
    have hc : Char.ofNat 12 = c := by rw [← h7, Char.ofNat_toNat]
    simp [parseStringBody, unescapeEsc, h]
    exact hc
  rw [if_neg h7]
  by_cases h8 : 0x20 ≤ c.toNat ∧ c.toNat < 0x7f
  · rw [if_pos h8]
    simp only [List.cons_append, List.nil_append, List.append_eq,
      List.nil_append, parseStringBody]
    rw [if_neg h1, if_neg h2, if_neg (by omega)]
    rw [h]
    rfl
  rw [if_neg h8]
  have hval := char_toNat_valid c
  by_cases h9 : c.toNat < 0x10000
  · rw [if_pos h9]
    rw [parseStringBody_u_single_step c.toNat h9 (by omega) fuel rest s r h,
      Char.ofNat_toNat]
  · rw [if_neg h9]
    rw [List.append_assoc]
    rw [parseStringBody_u_pair_step (0xd800 + (c.toNat - 0x10000) / 0x400)
      (0xdc00 + (c.toNat - 0x10000) % 0x400) (by omega) (by omega) fuel rest s r h]
    have hc : 0x10000 + (0xd800 + (c.toNat - 0x10000) / 0x400 - 0xd800) * 0x400 +
        (0xdc00 + (c.toNat - 0x10000) % 0x400 - 0xdc00) = c.toNat := by omega
    rw [hc, Char.ofNat_toNat]

/-- The parser decodes an escaped character list back to the original,
stopping at the closing quote, given fuel beyond the decoded length. -/
theorem parseStringBody_escapeList (l : List Char) :
    ∀ fuel rest, l.length + 1 ≤ fuel →
    parseStringBody fuel (jsonEscapeList l ++ '"' :: rest) = some (l, rest) := by
  induction l with
  | nil =>
    intro fuel rest hf
    obtain ⟨f, rfl⟩ : ∃ f, fuel = f + 1 := ⟨fuel - 1, by omega⟩
    simp [jsonEscapeList, parseStringBody]
  | cons c cs ih =>
    intro fuel rest hf
    obtain ⟨f, rfl⟩ : ∃ f, fuel = f + 1 := ⟨fuel - 1, by omega⟩
    rw [jsonEscapeList, List.append_assoc]
    have hcs : cs.length + 1 ≤ f := by
      simp only [List.length_cons] at hf
      omega
    exact parseStringBody_escape_step c f _ cs rest (ih f rest hcs)

/-- Escaping one character yields at least one character. -/
theorem jsonEscapeChar_length_pos (c : Char) : 1 ≤ (jsonEscapeChar c).length := by
  unfold jsonEscapeChar
  split_ifs <;> simp [toHex4]

/-- Escaping never shortens a character list. -/
theorem jsonEscapeList_length (l : List Char) :
    l.length ≤ (jsonEscapeList l).length := by
  induction l with
  | nil => simp [jsonEscapeList]
  | cons c cs ih =>
    rw [jsonEscapeList]
    have := jsonEscapeChar_length_pos c
    simp only [List.length_append, List.length_cons]
    omega

/-- With the fuel the parser actually passes (the input length plus one),
an escaped string body parses back to the original characters. -/
theorem parseStringBody_full (l rest : List Char) :
    parseStringBody ((jsonEscapeList l ++ '"' :: rest).length + 1)
      (jsonEscapeList l ++ '"' :: rest) = some (l, rest) := by
  apply parseStringBody_escapeList
  have := jsonEscapeList_length l
  simp only [List.length_append, List.length_cons]
  omega

/-- Parsing the printed digits of `n` followed by a non-digit recovers `n`. -/
theorem parseDigitsAux_natToDigits (n : Nat) (rest : List Char)
    (hrest : ∀ c, rest.head? = some c → isDigitChar c = false) :
    parseDigitsAux 0 (natToDigits n ++ rest) = (n, rest) := by
  rw [parseDigitsAux_run (natToDigits n) 0 rest (natToDigits_all_digits n) hrest]
  rw [foldl_natToDigits n 0]
  simp

/-- Every dumped value starts with a character that is not whitespace and
not a closing bracket, so the parser's lookahead falls through to the right
branch. -/
theorem dumps_head (v : PyVal) :
    ∃ c t, (dumps v).data = c :: t ∧ isJsonWs c = false ∧ c ≠ ']' ∧ c ≠ '\x7d' := by
  cases v with
  | str s =>
    exact ⟨'"', jsonEscapeList s.data ++ ['"'], by simp [dumps, jsonDumpStr],
      by decide, by decide, by decide⟩
  | int n =>
    by_cases hn : n < 0
    · refine ⟨'-', natToDigits (-n).toNat, ?_, by decide, by decide, by decide⟩
      simp [dumps, intRepr, hn, String.data_append]
    · obtain ⟨d, t, hd, hdig⟩ := natToDigits_head n.toNat
      obtain ⟨hws, _, _, _, _, _, _, _, hne1, hne2, _⟩ := isDigitChar_facts d hdig
      refine ⟨d, t, ?_, hws, hne1, hne2⟩
      simp [dumps, intRepr, hn]
      exact hd
  | bool b =>
    cases b with
    | true =>
      exact ⟨'t', ['r', 'u', 'e'], by simp [dumps], by decide, by decide, by decide⟩
    | false =>
      exact ⟨'f', ['a', 'l', 's', 'e'], by simp [dumps], by decide, by decide,
        by decide⟩
  | none =>
    exact ⟨'n', ['u', 'l', 'l'], by simp [dumps], by decide, by decide, by decide⟩
  | list xs =>
    cases xs with
    | nil => exact ⟨'[', [']'], by simp [dumps], by decide, by decide, by decide⟩
    | cons x xs =>
      exact ⟨'[', (dumpsItems x xs).data ++ [']'],
        by simp [dumps, String.data_append], by decide, by decide, by decide⟩
  | dict es =>
    cases es with
    | nil =>
      exact ⟨'\x7b', ['\x7d'], by simp [dumps], by decide, by decide, by decide⟩
    | cons e es =>
      exact ⟨'\x7b', (dumpsEntries e es).data ++ ['\x7d'],
        by simp [dumps, String.data_append], by decide, by decide, by decide⟩

/-- Every value needs at least one unit of fuel. -/
theorem needV_pos (v : PyVal) : 1 ≤ needV v := by
  cases v <;> simp [needV]

/-- A string's length is the length of its character list. -/
theorem string_length_data (s : String) : s.length = s.data.length := rfl

mutual

/-- The fuel a value needs is at most its printed length. -/
theorem needV_le_dumps (v : PyVal) : needV v ≤ (dumps v).data.length := by
  cases v with
  | str s => simp [dumps, jsonDumpStr, needV]
  | int n =>
    obtain ⟨c, t, hd, _⟩ := dumps_head (.int n)
    simp [needV, hd]
  | bool b => cases b <;> simp [dumps, needV]
  | none => simp [dumps, needV]
  | list xs =>
    cases xs with
    | nil => simp [dumps, needV, needItems]
    | cons x xs =>
      have h := needItems_le_dumpsItems x xs
      simp only [dumps, needV, needItems, String.data_append, List.length_append]
      simp only [needItems] at h
      have e1 : (['['] : List Char).length = 1 := rfl
      have e2 : ([']'] : List Char).length = 1 := rfl
      omega
  | dict es =>
    cases es with
    | nil => simp [dumps, needV, needEntries]
    | cons e es =>
      have h := needEntries_le_dumpsEntries e es
      simp only [dumps, needV, needEntries, String.data_append, List.length_append]
      simp only [needEntries] at h
      have e1 : (['\x7b'] : List Char).length = 1 := rfl
      have e2 : (['\x7d'] : List Char).length = 1 := rfl
      omega
termination_by sizeOf v

/-- The fuel an item run needs is at most its printed length plus one. -/
theorem needItems_le_dumpsItems (x : PyVal) (xs : List PyVal) :
    needItems (x :: xs) ≤ (dumpsItems x xs).data.length + 1 := by
  cases xs with
  | nil =>
    have h := needV_le_dumps x
    simp only [needItems, dumpsItems]
    omega
  | cons y ys =>
    have h1 := needV_le_dumps x
    have h2 := needItems_le_dumpsItems y ys
    simp only [needItems, dumpsItems, String.data_append, List.length_append] at h2 ⊢
    have e1 : (([',', ' '] : List Char)).length = 2 := rfl
    omega
termination_by sizeOf (x :: xs)

/-- The fuel an entry run needs is at most its printed length plus one. -/
theorem needEntries_le_dumpsEntries (e : String × PyVal) (es : List (String × PyVal)) :
    needEntries (e :: es) ≤ (dumpsEntries e es).data.length + 1 := by
  obtain ⟨k, v⟩ := e
  cases es with
  | nil =>
    have h := needV_le_dumps v
    simp only [needEntries, dumpsEntries, String.data_append, List.length_append]
    omega
  | cons e2 es2 =>
    have h1 := needV_le_dumps v
    have h2 := needEntries_le_dumpsEntries e2 es2
    simp only [needEntries, dumpsEntries, String.data_append, List.length_append] at h2 ⊢
    have e1 : (([',', ' '] : List Char)).length = 2 := rfl
    have e2 : (([':', ' '] : List Char)).length = 2 := rfl
    omega
termination_by sizeOf (e :: es)

end

/-- `parseVal` ignores a leading whitespace character. -/
theorem parseVal_cons_ws (fuel : Nat) (c : Char) (l : List Char)
    (h : isJsonWs c = true) : parseVal fuel (c :: l) = parseVal fuel l := by
  cases fuel with
  | zero => rfl
  | succ f =>
    simp only [parseVal]
    rw [skipWs_cons_ws c l h]

/-- `parseItems` ignores a leading whitespace character. -/
theorem parseItems_cons_ws (fuel : Nat) (c : Char) (l : List Char)
    (h : isJsonWs c = true) : parseItems fuel (c :: l) = parseItems fuel l := by
  cases fuel with
  | zero => rfl
  | succ f =>
    simp only [parseItems]
    rw [parseVal_cons_ws f c l h]

/-- `parseEntries` ignores a leading whitespace character. -/
theorem parseEntries_cons_ws (fuel : Nat) (c : Char) (l : List Char)
    (h : isJsonWs c = true) : parseEntries fuel (c :: l) = parseEntries fuel l := by
  cases fuel with
  | zero => rfl
  | succ f =>
    simp only [parseEntries]
    rw [skipWs_cons_ws c l h]

/-- A dumped item run starts like its first dumped value. -/
theorem dumpsItems_head (x : PyVal) (xs : List PyVal) :
    ∃ c t, (dumpsItems x xs).data = c :: t ∧ isJsonWs c = false ∧
      c ≠ ']' ∧ c ≠ '\x7d' := by
  obtain ⟨c, t, hd, h1, h2, h3⟩ := dumps_head x
  cases xs with
  | nil => exact ⟨c, t, by simp [dumpsItems, hd], h1, h2, h3⟩
  | cons y ys =>
    refine ⟨c, t ++ ([',', ' '] ++ (dumpsItems y ys).data), ?_, h1, h2, h3⟩
    simp [dumpsItems, String.data_append, hd]

/-- The fuel equation for an entry run, stated without destructuring. -/
theorem needEntries_cons (e : String × PyVal) (es : List (String × PyVal)) :
    needEntries (e :: es) = 1 + needV e.2 + needEntries es := by
  obtain ⟨k, v⟩ := e
  simp [needEntries]

/-- A dumped entry run starts with the opening quote of its first key. -/
theorem dumpsEntries_data (e : String × PyVal) (es : List (String × PyVal)) :
    ∃ t, (dumpsEntries e es).data = '"' :: t := by
  obtain ⟨k, v⟩ := e
  cases es with
  | nil =>
    exact ⟨(jsonEscapeList k.data ++ ['"']) ++ ([':', ' '] ++ (dumps v).data),
      by simp [dumpsEntries, jsonDumpStr, String.data_append]⟩
  | cons e2 es2 =>
    exact ⟨(jsonEscapeList k.data ++ ['"']) ++ ([':', ' '] ++ ((dumps v).data ++
      ([',', ' '] ++ (dumpsEntries e2 es2).data))),
      by simp [dumpsEntries, jsonDumpStr, String.data_append]⟩

/-- The printed form of a final object entry, by projections. -/
theorem dumpsEntries_nil_data (e : String × PyVal) :
    (dumpsEntries e []).data =
      '"' :: (jsonEscapeList e.1.data ++ ('"' :: (':' :: ' ' :: (dumps e.2).data))) := by
  obtain ⟨k, v⟩ := e
  simp [dumpsEntries, jsonDumpStr, String.data_append]

/-- The printed form of a non-final object entry, by projections. -/
theorem dumpsEntries_cons_data (e e2 : String × PyVal) (es2 : List (String × PyVal)) :
    (dumpsEntries e (e2 :: es2)).data =
      '"' :: (jsonEscapeList e.1.data ++ ('"' :: (':' :: ' ' :: ((dumps e.2).data ++
        (',' :: ' ' :: (dumpsEntries e2 es2).data))))) := by
  obtain ⟨k, v⟩ := e
  simp [dumpsEntries, jsonDumpStr, String.data_append]

mutual

theorem parseVal_dumps (v : PyVal) (fuel : Nat) (rest : List Char)
    (hf : needV v ≤ fuel)
    (hrest : ∀ c, rest.head? = some c → isDigitChar c = false) :
    parseVal fuel ((dumps v).data ++ rest) = some (v, rest) := by
  obtain ⟨f, rfl⟩ : ∃ f, fuel = f + 1 := ⟨fuel - 1, by have := needV_pos v; omega⟩
  cases v with
  | str s =>
    have hd : (dumps (.str s)).data = '"' :: (jsonEscapeList s.data ++ ['"']) := by
      simp [dumps, jsonDumpStr]
    rw [hd]
    simp only [List.cons_append, List.append_assoc, List.nil_append]
    simp only [parseVal]
    rw [skipWs_cons_not_ws _ _ (by decide)]
    dsimp only
    rw [if_pos rfl]
    rw [parseStringBody_full s.data rest]
    rfl
  | bool b =>
    cases b with
    | true =>
      have h1 : dumps (.bool true) = "true" := by simp [dumps]
      rw [h1, show ("true" : String).data = ['t', 'r', 'u', 'e'] from rfl]
      simp only [List.cons_append, List.nil_append]
      simp only [parseVal]
      rw [skipWs_cons_not_ws _ _ (by decide)]
      dsimp only
      rw [if_neg (by decide), if_pos rfl]
      rfl
    | false =>
      have h1 : dumps (.bool false) = "false" := by simp [dumps]
      rw [h1, show ("false" : String).data = ['f', 'a', 'l', 's', 'e'] from rfl]
      simp only [List.cons_append, List.nil_append]
      simp only [parseVal]
      rw [skipWs_cons_not_ws _ _ (by decide)]
      dsimp only
      rw [if_neg (by decide), if_neg (by decide), if_pos rfl]
      rfl
  | none =>
    have h1 : dumps .none = "null" := by simp [dumps]
    rw [h1, show ("null" : String).data = ['n', 'u', 'l', 'l'] from rfl]
    simp only [List.cons_append, List.nil_append]
    simp only [parseVal]
    rw [skipWs_cons_not_ws _ _ (by decide)]
    dsimp only
    rw [if_neg (by decide), if_neg (by decide), if_neg (by decide), if_pos rfl]
    rfl
  | int m =>
    by_cases hm : m < 0
    · have hd : (dumps (.int m)).data = '-' :: natToDigits (-m).toNat := by
        simp [dumps, intRepr, hm, String.data_append]
      rw [hd]
      obtain ⟨d, t, hdt, hdig⟩ := natToDigits_head (-m).toNat
      simp only [List.cons_append]
      simp only [parseVal]
      rw [skipWs_cons_not_ws _ _ (by decide)]
      dsimp only
      rw [if_neg (by decide), if_neg (by decide), if_neg (by decide),
        if_neg (by decide), if_neg (by decide), if_neg (by decide), if_pos rfl]
      rw [show natToDigits (-m).toNat ++ rest = d :: (t ++ rest) from by
        rw [hdt]; rfl]
      dsimp only
      rw [if_pos ?_]
      · rw [show d :: (t ++ rest) = natToDigits (-m).toNat ++ rest from by
          rw [hdt]; rfl]
        rw [parseDigitsAux_natToDigits (-m).toNat rest hrest]
        have : -(((-m).toNat : Nat) : Int) = m := by omega
        rw [this]
      · exact hdig
    · have hd : (dumps (.int m)).data = natToDigits m.toNat := by
        simp [dumps, intRepr, hm]
      rw [hd]
      obtain ⟨d, t, hdt, hdig⟩ := natToDigits_head m.toNat
      obtain ⟨hws, hq, ht', hfc, hnc, hbr, hbc, hmn, _, _, _⟩ :=
        isDigitChar_facts d hdig
      rw [show natToDigits m.toNat ++ rest = d :: (t ++ rest) from by
        rw [hdt]; rfl]
      simp only [parseVal]
      rw [skipWs_cons_not_ws _ _ hws]
      dsimp only
      rw [if_neg hq, if_neg ht', if_neg hfc, if_neg hnc, if_neg hbr, if_neg hbc,
        if_neg hmn, if_pos hdig]
      rw [show d :: (t ++ rest) = natToDigits m.toNat ++ rest from by
        rw [hdt]; rfl]
      rw [parseDigitsAux_natToDigits m.toNat rest hrest]
      have : ((m.toNat : Nat) : Int) = m := by omega
      rw [this]
  | list xs =>
    cases xs with
    | nil =>
      have h1 : dumps (.list []) = "[]" := by simp [dumps]
      rw [h1, show ("[]" : String).data = ['[', ']'] from rfl]
      simp only [List.cons_append, List.nil_append]
      simp only [parseVal]
      rw [skipWs_cons_not_ws _ _ (by decide)]
      dsimp only
      rw [if_neg (by decide), if_neg (by decide), if_neg (by decide),
        if_neg (by decide), if_pos rfl]
      rw [skipWs_cons_not_ws _ _ (by decide)]
      dsimp only
      rw [if_pos rfl]
    | cons x xs =>
      have hd : (dumps (.list (x :: xs))).data =
          '[' :: ((dumpsItems x xs).data ++ [']']) := by
        simp [dumps, String.data_append]
      rw [hd]
      simp only [List.cons_append, List.append_assoc, List.nil_append]
      simp only [parseVal]
      rw [skipWs_cons_not_ws _ _ (by decide)]
      dsimp only
      rw [if_neg (by decide), if_neg (by decide), if_neg (by decide),
        if_neg (by decide), if_pos rfl]
      obtain ⟨c0, t0, hi0, hw0, hne0, _⟩ := dumpsItems_head x xs
      rw [show (dumpsItems x xs).data ++ (']' :: rest) = c0 :: (t0 ++ (']' :: rest))
        from by rw [hi0]; rfl]
      rw [skipWs_cons_not_ws _ _ hw0]
      dsimp only
      rw [if_neg hne0]
      have hfi : needItems (x :: xs) ≤ f := by
        simp only [needV] at hf
        omega
      rw [show c0 :: (t0 ++ (']' :: rest)) = (dumpsItems x xs).data ++ (']' :: rest)
        from by rw [hi0]; rfl]
      rw [parseItems_dumps x xs f rest hfi]
      rfl
  | dict es =>
    cases es with
    | nil =>
      have h1 : dumps (.dict []) = "\x7b\x7d" := by simp [dumps]
      rw [h1, show ("\x7b\x7d" : String).data = ['\x7b', '\x7d'] from rfl]
      simp only [List.cons_append, List.nil_append]
      simp only [parseVal]
      rw [skipWs_cons_not_ws _ _ (by decide)]
      dsimp only
      rw [if_neg (by decide), if_neg (by decide), if_neg (by decide),
        if_neg (by decide), if_neg (by decide), if_pos rfl]
      rw [skipWs_cons_not_ws _ _ (by decide)]
      dsimp only
      rw [if_pos rfl]
    | cons e es =>
      have hd : (dumps (.dict (e :: es))).data =
          '\x7b' :: ((dumpsEntries e es).data ++ ['\x7d']) := by
        simp [dumps, String.data_append]
      rw [hd]
      simp only [List.cons_append, List.append_assoc, List.nil_append]
      simp only [parseVal]
      rw [skipWs_cons_not_ws _ _ (by decide)]
      dsimp only
      rw [if_neg (by decide), if_neg (by decide), if_neg (by decide),
        if_neg (by decide), if_neg (by decide), if_pos rfl]
      obtain ⟨t0, hi0⟩ := dumpsEntries_data e es
      rw [show (dumpsEntries e es).data ++ ('\x7d' :: rest) =
          '"' :: (t0 ++ ('\x7d' :: rest)) from by rw [hi0]; rfl]
      rw [skipWs_cons_not_ws _ _ (by decide)]
      dsimp only
      rw [if_neg (by decide)]
      have hfe : needEntries (e :: es) ≤ f := by
        simp only [needV] at hf
        omega
      rw [show ('"' : Char) :: (t0 ++ ('\x7d' :: rest)) =
          (dumpsEntries e es).data ++ ('\x7d' :: rest) from by rw [hi0]; rfl]
      rw [parseEntries_dumps e es f rest hfe]
      rfl
termination_by fuel

theorem parseItems_dumps (x : PyVal) (xs : List PyVal) (fuel : Nat)
    (rest : List Char) (hf : needItems (x :: xs) ≤ fuel) :
    parseItems fuel ((dumpsItems x xs).data ++ (']' :: rest)) =
      some (x :: xs, rest) := by
  obtain ⟨f, rfl⟩ : ∃ f, fuel = f + 1 :=
    ⟨fuel - 1, by simp only [needItems] at hf; omega⟩
  cases xs with
  | nil =>
    rw [show (dumpsItems x []).data = (dumps x).data from by simp [dumpsItems]]
    simp only [parseItems]
    have hfx : needV x ≤ f := by simp only [needItems] at hf; omega
    rw [parseVal_dumps x f (']' :: rest) hfx
      (fun c hc => by simp at hc; rw [← hc]; rfl)]
    rw [Option.bind_eq_bind, Option.some_bind]
    rw [skipWs_cons_not_ws _ _ (by decide)]
    dsimp only
    rw [if_neg (by decide), if_pos rfl]
  | cons y ys =>
    have hd : (dumpsItems x (y :: ys)).data =
        (dumps x).data ++ (',' :: ' ' :: (dumpsItems y ys).data) := by
      simp [dumpsItems, String.data_append]
    rw [hd]
    simp only [List.append_assoc, List.cons_append]
    simp only [parseItems]
    have hfx : needV x ≤ f := by simp only [needItems] at hf; omega
    have hfr : needItems (y :: ys) ≤ f := by
      simp only [needItems] at hf ⊢
      omega
    rw [parseVal_dumps x f (',' :: (' ' :: ((dumpsItems y ys).data ++ (']' :: rest))))
      hfx (fun c hc => by simp at hc; rw [← hc]; rfl)]
    rw [Option.bind_eq_bind, Option.some_bind]
    rw [skipWs_cons_not_ws _ _ (by decide)]
    dsimp only
    rw [if_pos rfl]
    rw [parseItems_cons_ws f ' ' _ (by decide)]
    rw [parseItems_dumps y ys f rest hfr]
    rfl
termination_by fuel

theorem parseEntries_dumps (e : String × PyVal) (es : List (String × PyVal))
    (fuel : Nat) (rest : List Char) (hf : needEntries (e :: es) ≤ fuel) :
    parseEntries fuel ((dumpsEntries e es).data ++ ('\x7d' :: rest)) =
      some (e :: es, rest) := by
  cases es with
  | nil =>
    obtain ⟨f, rfl⟩ : ∃ f, fuel = f + 1 :=
      ⟨fuel - 1, by rw [needEntries_cons] at hf; omega⟩
    have hfv : needV e.2 ≤ f := by rw [needEntries_cons] at hf; omega
    rw [dumpsEntries_nil_data e]
    simp only [List.cons_append, List.append_assoc]
    simp only [parseEntries]
    rw [skipWs_cons_not_ws _ _ (by decide)]
    dsimp only
    rw [if_pos rfl]
    rw [parseStringBody_full e.1.data
      (':' :: (' ' :: ((dumps e.2).data ++ ('\x7d' :: rest))))]
    rw [Option.bind_eq_bind, Option.some_bind]
    rw [skipWs_cons_not_ws _ _ (by decide)]
    dsimp only
    rw [if_pos rfl]
    rw [parseVal_cons_ws f ' ' _ (by decide)]
    rw [parseVal_dumps e.2 f ('\x7d' :: rest) hfv
      (fun c hc => by simp at hc; rw [← hc]; rfl)]
    rw [Option.bind_eq_bind, Option.some_bind]
    rw [skipWs_cons_not_ws _ _ (by decide)]
    dsimp only
    rw [if_neg (by decide), if_pos rfl]
  | cons e2 es2 =>
    obtain ⟨f, rfl⟩ : ∃ f, fuel = f + 1 :=
      ⟨fuel - 1, by rw [needEntries_cons] at hf; omega⟩
    have hfv : needV e.2 ≤ f := by rw [needEntries_cons] at hf; omega
    rw [dumpsEntries_cons_data e e2 es2]
    simp only [List.cons_append, List.append_assoc]
    simp only [parseEntries]
    rw [skipWs_cons_not_ws _ _ (by decide)]
    dsimp only
    rw [if_pos rfl]
    rw [parseStringBody_full e.1.data
      (':' :: (' ' :: ((dumps e.2).data ++ (',' :: (' ' ::
        ((dumpsEntries e2 es2).data ++ ('\x7d' :: rest)))))))]
    rw [Option.bind_eq_bind, Option.some_bind]
    rw [skipWs_cons_not_ws _ _ (by decide)]
    dsimp only
    rw [if_pos rfl]
    rw [parseVal_cons_ws f ' ' _ (by decide)]
    rw [parseVal_dumps e.2 f (',' :: (' ' ::
      ((dumpsEntries e2 es2).data ++ ('\x7d' :: rest)))) hfv
      (fun c hc => by simp at hc; rw [← hc]; rfl)]
    rw [Option.bind_eq_bind, Option.some_bind]
    rw [skipWs_cons_not_ws _ _ (by decide)]
    dsimp only
    rw [if_pos rfl]
    rw [parseEntries_cons_ws f ' ' _ (by decide)]
    have hfr : needEntries (e2 :: es2) ≤ f := by
      rw [needEntries_cons] at hf
      omega
    rw [parseEntries_dumps e2 es2 f rest hfr]
    rfl
termination_by fuel

end

/-- Parsing the `json.dumps` output of any modeled JSON value recovers the
value: the model's `loads` is a left inverse of `dumps`. -/
theorem loads_dumps (v : PyVal) : loads (dumps v) = some v := by
  have h := parseVal_dumps v ((dumps v).data.length + 1) []
    (le_trans (needV_le_dumps v) (Nat.le_succ _))
    (fun c hc => by simp at hc)
  rw [List.append_nil] at h
  unfold loads
  rw [h]
  rfl

/-- C5: with `text_content=False`, a non-empty dict sample is rendered by
`_get_text` as its `json.dumps` serialization, and parsing that string back
with `json.loads` recovers an equal dict. -/
theorem get_text_dict_json_round_trip (l : AzureCosmosDBLoader)
    (kvs : List (String × PyVal)) (md : Metadata)
    (htc : l._text_content = false) (hne : kvs ≠ []) :
    l._get_text (.dict kvs) md = .ok (dumps (.dict kvs)) ∧
      loads (dumps (.dict kvs)) = some (.dict kvs) := by
  refine ⟨?_, loads_dumps (.dict kvs)⟩
  cases kvs with
  | nil => exact absurd rfl hne
  | cons e es => simp [AzureCosmosDBLoader._get_text, htc, PyVal.isStr]

/-- C5 witness: the loader with `text_content=False` turns the dict
`{"a": "x"}` into its JSON text, and `loads` reads that text back as the
same dict. -/
theorem get_text_dict_json_round_trip_witness :
    sampleLoaderRaw._get_text (.dict [("a", .str "x")]) ⟨"p", 1⟩ =
        .ok (dumps (.dict [("a", .str "x")])) ∧
      loads (dumps (.dict [("a", .str "x")])) = some (.dict [("a", .str "x")]) :=
  get_text_dict_json_round_trip sampleLoaderRaw [("a", .str "x")] ⟨"p", 1⟩
    rfl (by simp)
